import Mathlib

set_option maxHeartbeats 1000000

deriving instance DecidableEq for Except

namespace ChatGPTBlock

/-- One chat message: a role ("system", "user" or "assistant") together with its
text content.  Mirrors the dicts `{"role": r, "content": c}` used throughout
`chatgpt_block.py`; Python compares such dicts by value, which `DecidableEq`
reproduces. -/
structure Turn where
  role : String
  content : String
deriving DecidableEq, Repr

/-- Table of `max_tokens_by_model` from `ChatGPTBlock.__init__`. -/
def max_tokens_by_model : List (String × Nat) :=
  [("gpt-3.5-turbo", 4097), ("gpt-3.5-turbo-0301", 4097),
   ("gpt-4", 8192), ("gpt-4-0314", 8192)]

/-- The two construction failures of `ChatGPTBlock.__init__`: `KeyError` for an
unknown model identifier, `ValueError` for the output-length check. -/
inductive InitError
  | keyError (model : String)
  | valueError
deriving DecidableEq, Repr

/-- The construction-time checks of `ChatGPTBlock.__init__` (lines 74-90):
`KeyError` when the model is not in the capacity table, then
`ValueError` exactly when `tokens_available < max_output_length`; on success the
session holds the resolved capacity. -/
def initCheck (model : String) (max_output_length : Nat) : Except InitError Nat :=
  match max_tokens_by_model.lookup model with
  | none => .error (.keyError model)
  | some tokens_available =>
    if tokens_available < max_output_length then .error .valueError
    else .ok tokens_available

/-- Token count of a list of turns as the trimming loop measures it: the sum of
the per-turn counts `enc turn.content`.  This is exactly the quantity the
source accumulates in `tokens_count` (line 166) and recomputes as `new_length`
(line 177).  The tokenizer `enc` is the opaque external encoding service. -/
def sumTokens (enc : String → Nat) (l : List Turn) : Nat :=
  (l.map (fun t => enc t.content)).sum

/-- The backward scan of `ChatGPTBlock.get_trimmed_history` (lines 165-171):
walk the reversed history, accumulate `tokens_count`, stop (excluding the
overflowing turn) as soon as the running total exceeds `limit`, remember the
last user turn seen, and build the kept suffix by inserting at the front. -/
def scanLoop (enc : String → Nat) (limit : Int) :
    List Turn → Int → List Turn → Option Turn → List Turn × Option Turn
  | [], _, trimmed, user_element => (trimmed, user_element)
  | e :: rest, tokens_count, trimmed, user_element =>
    let tc := tokens_count + (enc e.content : Int)
    if limit < tc then (trimmed, user_element)
    else scanLoop enc limit rest tc (e :: trimmed)
      (if e.role = "user" then some e else user_element)

/-- `ChatGPTBlock.get_trimmed_history` (lines 153-182) as a pure function of
the tokenizer, the available limit (`tokens_available - max_output_length`,
an integer that may be negative) and the history.  After the scan, if the
tracked user turn is not the first kept element, everything up to and
including its first occurrence is dropped (lines 173-175). -/
def getTrimmedHistory (enc : String → Nat) (limit : Int) (history : List Turn) : List Turn :=
  match scanLoop enc limit history.reverse 0 [] none with
  | (trimmed, none) => trimmed
  | (trimmed, some u) =>
    if trimmed.head? = some u then trimmed
    else trimmed.drop (trimmed.indexOf u + 1)

/-- The optional `delta` field of a streaming chunk's first choice; `content`
is present or absent (`'content' in chunk['delta']`, line 237). -/
structure Delta where
  content : Option String
deriving DecidableEq, Repr

/-- The optional `message` field of a non-streaming response's first choice;
`content` is present or absent (line 242). -/
structure Message where
  content : Option String
deriving DecidableEq, Repr

/-- `chunk['choices'][0]`: `finish_reason` (JSON null modelled as `none`),
an optional `delta` and an optional `message`. -/
structure Choice where
  finish_reason : Option String
  delta : Option Delta
  message : Option Message
deriving DecidableEq, Repr

/-- A raw response object or stream chunk, holding its `choices` list. -/
structure Chunk where
  choices : List Choice
deriving DecidableEq, Repr

/-- The exceptions `process_response` can raise: missing `choices[0]`
(IndexError), missing `delta` key while `finish_reason` is null (KeyError),
and `raise Exception(finish_reason)` for an unrecognized terminal marker. -/
inductive ProcError
  | emptyChoices
  | missingDelta
  | unrecognizedFinish (r : String)
deriving DecidableEq, Repr

/-- The mutable per-session state that the response path reads and writes:
the configuration flags `stream` and `raise_on_error` (fixed at construction)
together with `self.history` and the accumulator `self._answer`. -/
structure BlockState where
  stream : Bool
  raise_on_error : Bool
  history : List Turn
  answer : String
deriving DecidableEq, Repr

/-- `ChatGPTBlock.process_response` (lines 223-250) as a state transformer:
on a content delta, append it to the accumulator and return it; on a
`stop`/`length` terminal marker, append an assistant turn (the `message`
content when non-streaming and present, otherwise the accumulator), reset the
accumulator and return the final answer (or `None`); any other terminal
marker raises. -/
def process_response (s : BlockState) (chunk : Chunk) :
    Except ProcError (Option String × BlockState) :=
  match chunk.choices.head? with
  | none => .error .emptyChoices
  | some c =>
    match c.finish_reason with
    | none =>
      match c.delta with
      | none => .error .missingDelta
      | some d =>
        let content := d.content.getD ""
        .ok (some content, { s with answer := s.answer ++ content })
    | some fr =>
      if fr = "stop" ∨ fr = "length" then
        match (if s.stream then none else c.message.bind Message.content) with
        | some mc =>
          .ok (some mc, { s with history := s.history ++ [⟨"assistant", mc⟩], answer := "" })
        | none =>
          .ok (none, { s with history := s.history ++ [⟨"assistant", s.answer⟩], answer := "" })
      else .error (.unrecognizedFinish fr)

/-- One event observed while consuming the upstream streaming response:
either the next chunk, or a `requests.exceptions.ChunkedEncodingError`
thrown by the transport at that point. -/
inductive StreamItem
  | chunk (c : Chunk)
  | chunkedEncodingError
deriving DecidableEq, Repr

/-- Helper for `pySplit`: walk the characters with an accumulator holding the
current word reversed; whitespace flushes the word (if non-empty). -/
def pySplitChars : List Char → List Char → List String
  | [], acc => if acc.isEmpty then [] else [String.mk acc.reverse]
  | c :: cs, acc =>
    if c.isWhitespace then
      (if acc.isEmpty then [] else [String.mk acc.reverse]) ++ pySplitChars cs []
    else pySplitChars cs (c :: acc)

/-- Python's `str.split()` with no argument: split on runs of whitespace,
dropping empty pieces. -/
def pySplit (s : String) : List String :=
  pySplitChars s.data []

/-- The fragments produced by `SimpleStringIterator(string)` (lines 31-39):
each whitespace-separated token of the string followed by a single space. -/
def simpleStringIterator (string : String) : List String :=
  (pySplit string).map (fun tok => tok ++ " ")

/-- The fixed degraded message yielded word-by-word by `generator_wrapper`
after a mid-stream transport failure (lines 270-271). -/
def degradedWords : List String :=
  (pySplit "openAI error. Please try again.").map (fun w => w ++ " ")

/-- Everything observable from fully consuming the wrapped stream: the
fragments yielded in order, the session state afterwards, how many times the
on-error hook ran, and an exception that escaped to the consumer, if any. -/
structure GenResult where
  yielded : List String
  state : BlockState
  hookCalls : Nat
  propagated : Option ProcError
deriving DecidableEq, Repr

/-- `ChatGPTBlock.generator_wrapper` (lines 252-271), fully consumed: each
chunk goes through `process_response` and a truthy (non-`None`, non-empty)
piece is yielded; a `ChunkedEncodingError` stops consumption, invokes the
on-error hook once and yields the fixed degraded message word-by-word —
`raise_on_error` is never consulted; any `process_response` exception
propagates uncaught. -/
def generator_wrapper (s : BlockState) : List StreamItem → GenResult
  | [] => ⟨[], s, 0, none⟩
  | .chunkedEncodingError :: _ => ⟨degradedWords, s, 1, none⟩
  | .chunk c :: rest =>
    match process_response s c with
    | .error e => ⟨[], s, 0, some e⟩
    | .ok (piece, s') =>
      let r := generator_wrapper s' rest
      { r with yielded :=
          match piece with
          | some p => if p = "" then r.yielded else p :: r.yielded
          | none => r.yielded }

/-- How the call to `openai.ChatCompletion.create` turns out: a successful
non-streaming object, a successful stream, a declared `OpenAIError`, or any
other exception (both carrying their message text). -/
inductive ApiOutcome
  | objSuccess (c : Chunk)
  | streamSuccess (items : List StreamItem)
  | openAIError (msg : String)
  | otherError (msg : String)

/-- The value `call_raw_api` returns: the raw object, the raw stream, a
`SimpleStringIterator` over the degraded message, or the plain degraded
string (a bare `str`). -/
inductive RawResponse
  | obj (c : Chunk)
  | stream (items : List StreamItem)
  | simpleIter (words : List String)
  | plainStr (msg : String)
deriving Repr

/-- `ChatGPTBlock.call_raw_api` (lines 184-221): on success pass the raw
response through; on either exception class invoke the on-error hook, re-raise
when `raise_on_error` is set, and otherwise degrade to a
`SimpleStringIterator` over the error message when streaming or the plain
error string when not.  Returns the hook-invocation count and either the
propagated exception message or the response. -/
def call_raw_api (s : BlockState) (outcome : ApiOutcome) :
    Nat × Except String RawResponse :=
  match outcome with
  | .objSuccess c => (0, .ok (.obj c))
  | .streamSuccess items => (0, .ok (.stream items))
  | .openAIError e =>
    if s.raise_on_error then (1, .error e)
    else
      let errmsg := "OpenAI internal error. " ++ e
      (1, .ok (if s.stream then .simpleIter (simpleStringIterator errmsg) else .plainStr errmsg))
  | .otherError e =>
    if s.raise_on_error then (1, .error e)
    else
      let errmsg := "Internal error. " ++ e
      (1, .ok (if s.stream then .simpleIter (simpleStringIterator errmsg) else .plainStr errmsg))

/-- The exceptions that can escape `api_answer_wrapper`: a re-raised provider
error, an exception from non-streaming `process_response`, or the
`ValueError("openAI response has an unknown type: ...")` of its final branch. -/
inductive CallError
  | apiError (msg : String)
  | procError (e : ProcError)
  | valueError (tyname : String)
deriving DecidableEq, Repr

/-- The successful result shapes of a call: a returned `SimpleStringIterator`
(state untouched), the wrapped stream (here already fully consumed), or the
non-streaming answer with the updated state. -/
inductive CallOutcome
  | iter (words : List String) (s : BlockState)
  | streamed (r : GenResult)
  | answer (a : Option String) (s : BlockState)
deriving Repr

/-- `ChatGPTBlock.api_answer_wrapper` (lines 273-288): dispatch on the type of
`call_raw_api`'s result — `SimpleStringIterator` returned as is, a generator
wrapped by `generator_wrapper`, an `OpenAIObject` sent through
`process_response`, and anything else (in particular the plain degraded
string) rejected with `ValueError`.  Returns the dispatch-time hook count with
the outcome. -/
def api_answer_wrapper (s : BlockState) (outcome : ApiOutcome) :
    Nat × Except CallError CallOutcome :=
  match call_raw_api s outcome with
  | (hooks, .error e) => (hooks, .error (.apiError e))
  | (hooks, .ok (.simpleIter ws)) => (hooks, .ok (.iter ws s))
  | (hooks, .ok (.stream items)) => (hooks, .ok (.streamed (generator_wrapper s items)))
  | (hooks, .ok (.obj c)) =>
    match process_response s c with
    | .error e => (hooks, .error (.procError e))
    | .ok (a, s') => (hooks, .ok (.answer a s'))
  | (hooks, .ok (.plainStr _)) => (hooks, .error (.valueError "str"))

/-- The state updates `ChatGPTBlock.__call__` (lines 290-304) performs before
dispatching: append the preprocessed request as a user turn, then replace the
history by its trimmed version.  Note that the accumulator is not touched. -/
def callPre (enc : String → Nat) (limit : Int) (s : BlockState) (request : String) :
    BlockState :=
  let s1 := { s with history := s.history ++ [Turn.mk "user" request] }
  { s1 with history := getTrimmedHistory enc limit s1.history }

/-- `ChatGPTBlock.__call__`: preprocess/append/trim, then dispatch and wrap. -/
def callBlock (enc : String → Nat) (limit : Int) (s : BlockState) (request : String)
    (outcome : ApiOutcome) : Nat × Except CallError CallOutcome :=
  api_answer_wrapper (callPre enc limit s request) outcome

/-- `ChatGPTBlock.reset` (lines 306-311): clear history and accumulator. -/
def resetBlock (s : BlockState) : BlockState :=
  { s with history := [], answer := "" }

/-- A streaming chunk carrying the content delta `x` and a null finish reason. -/
def deltaChunk (x : String) : Chunk := ⟨[⟨none, some ⟨some x⟩, none⟩]⟩

/-- A terminal streaming chunk with `finish_reason = "stop"`. -/
def stopChunk : Chunk := ⟨[⟨some "stop", none, none⟩]⟩

/-- Session state after one streamed exchange whose upstream failed mid-stream
(one delta "A", then a `ChunkedEncodingError`), starting from a fresh
streaming session. -/
def exchangeOneState : BlockState :=
  match (callBlock (fun _ => 1) 100 ⟨true, false, [], ""⟩ "hi"
      (.streamSuccess [.chunk (deltaChunk "A"), .chunkedEncodingError])).2 with
  | .ok (.streamed r) => r.state
  | _ => ⟨true, false, [], ""⟩

/-- Helper: `sumTokens` is invariant under reversal. -/
theorem sumTokens_reverse (enc : String → Nat) (l : List Turn) :
    sumTokens enc l.reverse = sumTokens enc l := by
  simp [sumTokens, List.map_reverse, List.sum_reverse]

/-- Helper: dropping turns can only lower the summed token count. -/
theorem sumTokens_drop_le (enc : String → Nat) (l : List Turn) (n : Nat) :
    sumTokens enc (l.drop n) ≤ sumTokens enc l := by
  conv_rhs => rw [← List.take_append_drop n l]
  simp only [sumTokens, List.map_append, List.sum_append]
  omega

/-- Helper: the scan of `get_trimmed_history` keeps a reversed prefix of the
list it walks (the payload grows by `insert(0, ·)`), and whenever it keeps
anything at all, the starting count plus the kept tokens stays within the
limit (the overflowing turn is excluded before insertion, line 167-168). -/
theorem scanLoop_take (enc : String → Nat) (limit : Int) (l : List Turn) :
    ∀ (cnt : Int) (t : List Turn) (ue : Option Turn),
      ∃ k, k ≤ l.length ∧
        (scanLoop enc limit l cnt t ue).1 = (l.take k).reverse ++ t ∧
        (k = 0 ∨ cnt + (sumTokens enc (l.take k) : Int) ≤ limit) := by
  induction l with
  | nil =>
    intro cnt t ue
    exact ⟨0, Nat.le_refl 0, by simp [scanLoop], Or.inl rfl⟩
  | cons e rest ih =>
    intro cnt t ue
    by_cases hb : limit < cnt + (enc e.content : Int)
    · refine ⟨0, Nat.zero_le _, ?_, Or.inl rfl⟩
      simp [scanLoop, hb]
    · obtain ⟨k, hk, hfst, hsum⟩ :=
        ih (cnt + (enc e.content : Int)) (e :: t) (if e.role = "user" then some e else ue)
      have hstep : scanLoop enc limit (e :: rest) cnt t ue =
          scanLoop enc limit rest (cnt + (enc e.content : Int)) (e :: t)
            (if e.role = "user" then some e else ue) := by
        simp [scanLoop, hb]
      refine ⟨k + 1, Nat.succ_le_succ hk, ?_, Or.inr ?_⟩
      · rw [hstep, hfst]
        simp [List.take_succ_cons, List.reverse_cons, List.append_assoc]
      · rcases hsum with h0 | hle
        · subst h0
          simp only [List.take_succ_cons, List.take_zero, sumTokens, List.map_cons,
            List.map_nil, List.sum_cons, List.sum_nil]
          push_cast
          omega
        · simp only [List.take_succ_cons, sumTokens, List.map_cons, List.sum_cons] at hle ⊢
          push_cast at hle ⊢
          omega

/-- Helper: when the whole walked list fits within the limit, the scan keeps
all of it and tracks as user turn the last user element it met (the first
user turn of the original order), falling back to the incoming tracker. -/
theorem scanLoop_full (enc : String → Nat) (limit : Int) (l : List Turn) :
    ∀ (cnt : Int) (t : List Turn) (ue : Option Turn),
      cnt + (sumTokens enc l : Int) ≤ limit →
      scanLoop enc limit l cnt t ue =
        (l.reverse ++ t, (l.reverse.find? (fun x => x.role == "user")).or ue) := by
  induction l with
  | nil =>
    intro cnt t ue _
    simp [scanLoop]
  | cons e rest ih =>
    intro cnt t ue hfit
    have hsums : cnt + (enc e.content : Int) + (sumTokens enc rest : Int) ≤ limit := by
      have hc : sumTokens enc (e :: rest) = enc e.content + sumTokens enc rest := by
        simp [sumTokens]
      rw [hc] at hfit
      push_cast at hfit
      omega
    have hb : ¬ limit < cnt + (enc e.content : Int) := by omega
    have hstep : scanLoop enc limit (e :: rest) cnt t ue =
        scanLoop enc limit rest (cnt + (enc e.content : Int)) (e :: t)
          (if e.role = "user" then some e else ue) := by
      simp [scanLoop, hb]
    rw [hstep, ih _ _ _ hsums]
    have hlast : (if e.role = "user" then some e else ue) =
        (List.find? (fun x => x.role == "user") [e]).or ue := by
      by_cases hr : e.role = "user"
      · simp [List.find?_cons, beq_iff_eq.mpr hr, hr]
      · simp [List.find?_cons, beq_eq_false_iff_ne.mpr hr, hr]
    rw [hlast]
    simp [List.reverse_cons, List.append_assoc, List.find?_append, Option.or_assoc]

/-- Helper: the trimmed history is some drop of what the scan kept (either
nothing is dropped, or everything up to and including the tracked user turn). -/
theorem trim_eq_drop (enc : String → Nat) (limit : Int) (H : List Turn) :
    ∃ n, getTrimmedHistory enc limit H =
      ((scanLoop enc limit H.reverse 0 [] none).1).drop n := by
  unfold getTrimmedHistory
  rcases hscan : scanLoop enc limit H.reverse 0 [] none with ⟨trimmed, ue⟩
  cases ue with
  | none => exact ⟨0, by simp⟩
  | some u =>
    by_cases hh : trimmed.head? = some u
    · exact ⟨0, by simp [hh]⟩
    · exact ⟨trimmed.indexOf u + 1, by simp [hh]⟩

/-- Helper: a non-empty trimmed history fits within the limit. -/
theorem trim_sumTokens_le_of_ne_nil (enc : String → Nat) (limit : Int) (H : List Turn)
    (hne : getTrimmedHistory enc limit H ≠ []) :
    (sumTokens enc (getTrimmedHistory enc limit H) : Int) ≤ limit := by
  obtain ⟨n, hn⟩ := trim_eq_drop enc limit H
  obtain ⟨k, _, hfst, hsum⟩ := scanLoop_take enc limit H.reverse 0 [] none
  rw [hn, hfst] at hne ⊢
  rcases hsum with h0 | hle
  · subst h0
    simp at hne
  · have h1 : sumTokens enc ((((H.reverse.take k).reverse ++ [])).drop n) ≤
        sumTokens enc ((H.reverse.take k).reverse ++ []) := sumTokens_drop_le _ _ _
    rw [List.append_nil, sumTokens_reverse] at h1
    rw [List.append_nil]
    have h2 : (sumTokens enc (((H.reverse.take k).reverse).drop n) : Int) ≤
        (sumTokens enc (H.reverse.take k) : Int) := by exact_mod_cast h1
    omega

/-- Helper: the trimmed history is a contiguous suffix of the input. -/
theorem trim_suffix (enc : String → Nat) (limit : Int) (H : List Turn) :
    getTrimmedHistory enc limit H <:+ H := by
  obtain ⟨n, hn⟩ := trim_eq_drop enc limit H
  obtain ⟨k, _, hfst, _⟩ := scanLoop_take enc limit H.reverse 0 [] none
  rw [hn, hfst, List.append_nil]
  refine (List.drop_suffix _ _).trans ?_
  exact ⟨(H.reverse.drop k).reverse,
    by rw [← List.reverse_append, List.take_append_drop, List.reverse_reverse]⟩

/-- Helper: re-trimming a fitting history with no user turn returns it whole. -/
theorem trim_full_no_user (enc : String → Nat) (limit : Int) (S : List Turn)
    (hS : (sumTokens enc S : Int) ≤ limit)
    (hu : S.find? (fun x => x.role == "user") = none) :
    getTrimmedHistory enc limit S = S := by
  unfold getTrimmedHistory
  have hscan := scanLoop_full enc limit S.reverse 0 [] none
    (by rw [sumTokens_reverse]; omega)
  rw [hscan]
  simp [List.reverse_reverse, List.append_nil, hu]

/-- Helper: re-trimming a fitting history whose first turn is a user turn
returns it whole (the tracked user turn is exactly the head). -/
theorem trim_full_head_user (enc : String → Nat) (limit : Int) (h₀ : Turn) (tl : List Turn)
    (hrole : h₀.role = "user")
    (hS : (sumTokens enc (h₀ :: tl) : Int) ≤ limit) :
    getTrimmedHistory enc limit (h₀ :: tl) = h₀ :: tl := by
  unfold getTrimmedHistory
  have hscan := scanLoop_full enc limit (h₀ :: tl).reverse 0 [] none
    (by rw [sumTokens_reverse]; omega)
  rw [hscan]
  have hfind : (h₀ :: tl).find? (fun x => x.role == "user") = some h₀ := by
    simp [List.find?_cons, beq_iff_eq.mpr hrole]
  simp [List.reverse_reverse, List.append_nil, hfind]

/-- C1: evaluation of the code at the failing configuration.  For a
non-streaming session with raise-on-error false, a provider failure during
initial dispatch does not return the plain degraded error string: after the
hook runs once, `call_raw_api` hands the degraded string to
`api_answer_wrapper`, whose isinstance chain has no `str` case, so the call
raises `ValueError("openAI response has an unknown type: ...")` instead. -/
theorem C1_nonstreaming_failure_eval (h : List Turn) (a e : String) :
    api_answer_wrapper ⟨false, false, h, a⟩ (.openAIError e) =
      (1, .error (.valueError "str")) := rfl

/-- C2 (counterexample): trimming is not idempotent.  On the history
[assistant, user, assistant, user, assistant] with one token per turn and
limit 10, the first trim drops through the first user turn and returns a
suffix that starts with an assistant turn but still contains a user turn, so
a second trim drops again. -/
theorem C2_counterexample :
    getTrimmedHistory (fun _ => 1) 10
        (getTrimmedHistory (fun _ => 1) 10
          [⟨"assistant", "a0"⟩, ⟨"user", "u1"⟩, ⟨"assistant", "a2"⟩,
           ⟨"user", "u3"⟩, ⟨"assistant", "a4"⟩]) ≠
      getTrimmedHistory (fun _ => 1) 10
        [⟨"assistant", "a0"⟩, ⟨"user", "u1"⟩, ⟨"assistant", "a2"⟩,
         ⟨"user", "u3"⟩, ⟨"assistant", "a4"⟩] := by
  decide

/-- C2 (amended): trimming is idempotent exactly in the benign cases — when
`trim(H, L)` is empty, or starts with a user turn, or contains no user turn
at all, re-running trim returns it unchanged.  (When it starts with a
non-user turn and still contains a user turn, a second run drops further
turns, as the counterexample shows.) -/
theorem C2_trim_idempotent_cases (enc : String → Nat) (limit : Int) (H : List Turn)
    (h : getTrimmedHistory enc limit H = [] ∨
         (getTrimmedHistory enc limit H).head?.map Turn.role = some "user" ∨
         (getTrimmedHistory enc limit H).find? (fun x => x.role == "user") = none) :
    getTrimmedHistory enc limit (getTrimmedHistory enc limit H) =
      getTrimmedHistory enc limit H := by
  rcases h with h | h | h
  · rw [h]; rfl
  · cases hS : getTrimmedHistory enc limit H with
    | nil => rfl
    | cons h₀ tl =>
      rw [hS] at h
      simp only [List.head?_cons, Option.map_some] at h
      have hne : getTrimmedHistory enc limit H ≠ [] := by
        rw [hS]; exact List.cons_ne_nil _ _
      have hsum := trim_sumTokens_le_of_ne_nil enc limit H hne
      rw [hS] at hsum
      exact trim_full_head_user enc limit h₀ tl (Option.some_injective _ h) hsum
  · by_cases hnil : getTrimmedHistory enc limit H = []
    · rw [hnil]; rfl
    · exact trim_full_no_user enc limit _ (trim_sumTokens_le_of_ne_nil enc limit H hnil) h

/-- C2 (witness): on the history [user, assistant], which trims to itself
with a user turn in front, re-trimming is the identity. -/
theorem C2_witness :
    getTrimmedHistory (fun _ => 1) 10
        (getTrimmedHistory (fun _ => 1) 10 [⟨"user", "u"⟩, ⟨"assistant", "a"⟩]) =
      getTrimmedHistory (fun _ => 1) 10 [⟨"user", "u"⟩, ⟨"assistant", "a"⟩] :=
  C2_trim_idempotent_cases (fun _ => 1) 10 [⟨"user", "u"⟩, ⟨"assistant", "a"⟩]
    (Or.inr (Or.inl (by decide)))

/-- C3 (counterexample): with raise-on-error true, a mid-stream
`ChunkedEncodingError` does NOT propagate: `generator_wrapper` never consults
the flag — it invokes the hook once and yields the degraded word sequence. -/
theorem C3_counterexample :
    (generator_wrapper ⟨true, true, [], ""⟩ [.chunkedEncodingError]).propagated = none ∧
    (generator_wrapper ⟨true, true, [], ""⟩ [.chunkedEncodingError]).yielded = degradedWords ∧
    (generator_wrapper ⟨true, true, [], ""⟩ [.chunkedEncodingError]).hookCalls = 1 ∧
    degradedWords ≠ [] := by
  decide

/-- C3 (amended): a mid-stream `ChunkedEncodingError` is always swallowed,
regardless of the raise-on-error configuration: the wrapper stops consuming
the upstream, invokes the error hook exactly once, yields the fixed degraded
message word-by-word, and propagates nothing. -/
theorem C3_midstream_always_degrades (s : BlockState) (rest : List StreamItem) :
    generator_wrapper s (.chunkedEncodingError :: rest) =
      ⟨degradedWords, s, 1, none⟩ := rfl

/-- C4: evaluation of the construction check at the boundary.  With model
"gpt-4" (capacity 8192) and an output reservation of exactly 8192, the check
`tokens_available < max_output_length` does not fire, so construction
succeeds even though the reservation equals total capacity — contradicting
the claim (and the code's own error message, which demands the reservation
be strictly less than the model capacity). -/
theorem C4_boundary_eval :
    initCheck "gpt-4" 8192 = .ok 8192 ∧ ¬ (8192 < 8192) := by
  decide

/-- C5 (counterexample): the trimmed history's token count need not stay
within the available limit when that limit is negative (which the source
permits: `tokens_available - max_output_length` may go below zero once the
system prompt and examples are subtracted).  At limit -1 the trim of any
history is empty, whose token count 0 already exceeds -1. -/
theorem C5_counterexample :
    ¬ ((sumTokens (fun _ => 1) (getTrimmedHistory (fun _ => 1) (-1) ([] : List Turn)) : Int)
        ≤ -1) := by
  decide

/-- C5 (amended): for every history and every non-negative available token
limit, the summed token count of the trimmed history stays within the limit. -/
theorem C5_trim_fits (enc : String → Nat) (limit : Int) (H : List Turn)
    (h0 : 0 ≤ limit) :
    (sumTokens enc (getTrimmedHistory enc limit H) : Int) ≤ limit := by
  by_cases hne : getTrimmedHistory enc limit H = []
  · rw [hne]
    simpa [sumTokens] using h0
  · exact trim_sumTokens_le_of_ne_nil enc limit H hne

/-- C5 (witness): a single user turn of one token fits within limit 5. -/
theorem C5_witness :
    (sumTokens (fun _ => 1) (getTrimmedHistory (fun _ => 1) 5 [⟨"user", "u"⟩]) : Int) ≤ 5 :=
  C5_trim_fits (fun _ => 1) 5 [⟨"user", "u"⟩] (by decide)

/-- C6: the trimmed history is always a contiguous suffix of the input
history (order preserved, no gaps), and trimming the empty history returns
the empty list. -/
theorem C6_trim_suffix (enc : String → Nat) (limit : Int) (H : List Turn) :
    getTrimmedHistory enc limit H <:+ H ∧
    getTrimmedHistory enc limit ([] : List Turn) = [] :=
  ⟨trim_suffix enc limit H, rfl⟩

/-- C7: streaming accumulation.  Fully consuming the wrapped stream over
chunks with deltas "A", "B", "C" and a terminal "stop" chunk yields the three
fragments, appends exactly one assistant turn with content "ABC" to the
history, and resets the accumulator to empty; the hook never runs and nothing
propagates. -/
theorem C7_streaming_accumulation (r : Bool) (h : List Turn) :
    generator_wrapper ⟨true, r, h, ""⟩
        [.chunk (deltaChunk "A"), .chunk (deltaChunk "B"),
         .chunk (deltaChunk "C"), .chunk stopChunk] =
      ⟨["A", "B", "C"], ⟨true, r, h ++ [⟨"assistant", "ABC"⟩], ""⟩, 0, none⟩ := rfl

/-- C8: non-streaming round trip.  Processing a response object with
`finish_reason = "stop"` and message content x appends exactly one assistant
turn with content x, resets the accumulator to empty, and returns x. -/
theorem C8_round_trip (r : Bool) (h : List Turn) (a x : String) :
    process_response ⟨false, r, h, a⟩ ⟨[⟨some "stop", none, some ⟨some x⟩⟩]⟩ =
      .ok (some x, ⟨false, r, h ++ [⟨"assistant", x⟩], ""⟩) := rfl

/-- C9 (counterexample): after a streamed exchange that ended in a mid-stream
transport failure (accumulator left at "A"), the next caller invocation does
not reset the accumulator: the state entering dispatch still carries "A", and
the next streamed exchange's assistant turn comes out as "AZ" instead of "Z". -/
theorem C9_counterexample :
    exchangeOneState.stream = true ∧
    exchangeOneState.answer = "A" ∧
    (callPre (fun _ => 1) 100 exchangeOneState "yo").answer = "A" ∧
    ("A" : String) ≠ "" ∧
    (generator_wrapper (callPre (fun _ => 1) 100 exchangeOneState "yo")
        [.chunk (deltaChunk "Z"), .chunk stopChunk]).state.history.getLast? =
      some ⟨"assistant", "AZ"⟩ := by
  decide

/-- C9 (amended): the accumulator is reset to empty by a terminal-marker
completion and by explicit reset, but the caller-invocation path itself never
touches it — a new streamed exchange starts with whatever the previous
exchange left behind, which is empty only when that exchange completed via a
terminal marker (or after reset), not after a mid-stream failure. -/
theorem C9_amended (enc : String → Nat) (L : Int) (s : BlockState) (req : String)
    (d : Option Delta) (m : Option Message) :
    (callPre enc L s req).answer = s.answer ∧
    (∃ a s', process_response s ⟨[⟨some "stop", d, m⟩]⟩ = Except.ok (a, s') ∧
      s'.answer = "") ∧
    (resetBlock s).answer = "" := by
  refine ⟨rfl, ?_, rfl⟩
  have hred : process_response s ⟨[⟨some "stop", d, m⟩]⟩ =
      match (if s.stream then (none : Option String) else m.bind Message.content) with
      | some mc =>
        .ok (some mc, { s with history := s.history ++ [⟨"assistant", mc⟩], answer := "" })
      | none =>
        .ok (none, { s with history := s.history ++ [⟨"assistant", s.answer⟩], answer := "" }) :=
    rfl
  rw [hred]
  cases (if s.stream then (none : Option String) else m.bind Message.content) with
  | none => exact ⟨none, _, rfl, rfl⟩
  | some mc => exact ⟨some mc, _, rfl, rfl⟩

/-- C10: every fragment the streaming wrapper yields is a non-empty string —
a chunk whose delta lacks content (or carries empty content) is accumulated
silently and yields nothing, the terminal chunk yields nothing, and the
degraded words all end in a space. -/
theorem C10_yield_nonempty (s : BlockState) (items : List StreamItem) (p : String)
    (hp : p ∈ (generator_wrapper s items).yielded) : p ≠ "" := by
  induction items generalizing s with
  | nil => simp [generator_wrapper] at hp
  | cons it rest ih =>
    cases it with
    | chunkedEncodingError =>
      have hred : generator_wrapper s (.chunkedEncodingError :: rest) =
          ⟨degradedWords, s, 1, none⟩ := rfl
      rw [hred] at hp
      have hd : degradedWords = ["openAI ", "error. ", "Please ", "try ", "again. "] := by
        decide
      rw [hd] at hp
      simp only [List.mem_cons, List.not_mem_nil, or_false] at hp
      rcases hp with h | h | h | h | h <;> subst h <;> decide
    | chunk c =>
      cases hpr : process_response s c with
      | error e =>
        have hyld : (generator_wrapper s (.chunk c :: rest)).yielded = [] := by
          simp only [generator_wrapper, hpr]
        rw [hyld] at hp
        simp at hp
      | ok v =>
        obtain ⟨piece, s'⟩ := v
        cases piece with
        | none =>
          have hyld : (generator_wrapper s (.chunk c :: rest)).yielded =
              (generator_wrapper s' rest).yielded := by
            simp only [generator_wrapper, hpr]
          rw [hyld] at hp
          exact ih s' hp
        | some q =>
          by_cases hq : q = ""
          · have hyld : (generator_wrapper s (.chunk c :: rest)).yielded =
                (generator_wrapper s' rest).yielded := by
              simp only [generator_wrapper, hpr, if_pos hq]
            rw [hyld] at hp
            exact ih s' hp
          · have hyld : (generator_wrapper s (.chunk c :: rest)).yielded =
                q :: (generator_wrapper s' rest).yielded := by
              simp only [generator_wrapper, hpr, if_neg hq]
            rw [hyld] at hp
            rcases List.mem_cons.mp hp with h | h
            · rw [h]; exact hq
            · exact ih s' h

/-- C10 (witness): the single fragment "A" yielded for the stream
[delta "A", stop] is non-empty. -/
theorem C10_witness : ("A" : String) ≠ "" :=
  C10_yield_nonempty ⟨true, false, [], ""⟩
    [.chunk (deltaChunk "A"), .chunk stopChunk] "A" (by decide)

end ChatGPTBlock
